import Mathlib

/-!
# Verification of the dirwatch process-supervision state machine

Shallow embedding of `src/src/dirwatch/__init__.py` (with the older variant
`src/dirwatch/__init__.py` agreeing on all modelled behavior).

The `Manager` class owns the supervisor state: `_current_process`
(modelled as `Option Nat`, the pid of the running child), `_process_terminated`
and `_pending_modification` (booleans), plus the immutable configuration flags
`_watch` and `_kill`.  Side effects (clearing the screen, spawning a child,
sending SIGTERM to a process group, reaping an exited child) are modelled as an
explicit effect trace.  Python `assert` statements are modelled by returning
`Option`: `none` is an `AssertionError`.
-/

set_option autoImplicit false

namespace Dirwatch

/-- Observable side effects of the supervisor, in program order.
`clearScreen` is the `print("\x1bc")` in `_start_process`; `startProcess pid`
is the `subprocess.Popen(...)` call, tagged with the pid of the new child;
`sendSigterm pid` is the `os.killpg(...)` in `_terminate_process`; `reaped pid`
marks the successful non-blocking `wait(0)` in `_reap_process`, i.e. the point
where the exited child is confirmed dead and its handle is cleared. -/
inductive Effect where
  | clearScreen : Effect
  | startProcess : Nat → Effect
  | sendSigterm : Nat → Effect
  | reaped : Nat → Effect
  deriving DecidableEq

/-- The state of a `Manager` object (`Manager.__init__`): configuration flags
`watch` and `kill`, the child handle `currentProcess` (`None` initially),
`processTerminated` and `pendingModification` (both `False` initially).
`nextPid` is bookkeeping for the pid the OS hands out at the next spawn. -/
structure Manager where
  watch : Bool
  kill : Bool
  currentProcess : Option Nat
  processTerminated : Bool
  pendingModification : Bool
  nextPid : Nat
  deriving DecidableEq

/-- The state right after `Manager.__init__(command=..., watch=..., kill=...)`. -/
def initManager (watch kill : Bool) : Manager :=
  { watch := watch, kill := kill, currentProcess := none,
    processTerminated := false, pendingModification := false, nextPid := 0 }

/-- `Manager._start_process`: asserts `_current_process is None` (modelled by
`none` = `AssertionError`), clears the screen when `_watch` is set, and spawns
the command, storing the new handle in `_current_process`. -/
def start_process (m : Manager) : Option (Manager × List Effect) :=
  match m.currentProcess with
  | some _ => none
  | none =>
      some ({ m with currentProcess := some m.nextPid, nextPid := m.nextPid + 1 },
            (if m.watch then [Effect.clearScreen] else []) ++ [Effect.startProcess m.nextPid])

/-- `Manager._check_pending_modification`: if `_pending_modification` is set
then either start the command (when no child is running, clearing both flags
first) or, when kill mode is on and SIGTERM was not yet sent for this run, mark
`_process_terminated` and send SIGTERM to the process group. -/
def check_pending (m : Manager) : Option (Manager × List Effect) :=
  if m.pendingModification then
    match m.currentProcess with
    | none =>
        start_process { m with pendingModification := false, processTerminated := false }
    | some pid =>
        if m.kill && !m.processTerminated then
          some ({ m with processTerminated := true }, [Effect.sendSigterm pid])
        else
          some (m, [])
  else
    some (m, [])

/-- `Manager.handle_modification`: set `_pending_modification` and re-evaluate. -/
def handle_modification (m : Manager) : Option (Manager × List Effect) :=
  check_pending { m with pendingModification := true }

/-- `Manager._reap_process`: asserts a child handle exists, then does a
non-blocking `wait(0)`.  The parameter `exited` tells whether the child has
actually exited (`wait(0)` succeeding) or not (`TimeoutExpired`, a no-op).
On a confirmed exit the handle is cleared and pending work is re-evaluated.
Note that `_process_terminated` is not touched here. -/
def reap_process (exited : Bool) (m : Manager) : Option (Manager × List Effect) :=
  match m.currentProcess with
  | none => none
  | some pid =>
      if exited then
        match check_pending { m with currentProcess := none } with
        | none => none
        | some (m2, effs) => some (m2, Effect.reaped pid :: effs)
      else
        some (m, [])

/-- `Manager.handle_sigchld`: if a child handle exists, reap it; otherwise do
nothing at all. -/
def handle_sigchld (exited : Bool) (m : Manager) : Option (Manager × List Effect) :=
  match m.currentProcess with
  | none => some (m, [])
  | some _ => reap_process exited m

/-- `Manager.handle_exit`: on shutdown, if a child is running, send SIGTERM to
its process group and block in `wait()` until it exits.  No state field is
mutated. -/
def handle_exit (m : Manager) : Option (Manager × List Effect) :=
  match m.currentProcess with
  | none => some (m, [])
  | some pid => some (m, [Effect.sendSigterm pid])

/-- The events the environment can deliver to the supervisor: a relevant
filesystem modification (the driver loop calling `handle_modification`), a
SIGCHLD (the installed handler calling `handle_sigchld`; the flag records
whether the child has really exited), and the shutdown request
(`KeyboardInterrupt` leading to `handle_exit`). -/
inductive Event where
  | modification : Event
  | sigchld : Bool → Event
  | exitRequest : Event
  deriving DecidableEq

/-- Dispatch one event to the corresponding `Manager` operation. -/
def step (e : Event) (m : Manager) : Option (Manager × List Effect) :=
  match e with
  | Event.modification => handle_modification m
  | Event.sigchld exited => handle_sigchld exited m
  | Event.exitRequest => handle_exit m

/-- Run a sequence of events from a given state, accumulating the effect
trace; `none` as soon as any assertion fails. -/
def runFrom (m : Manager) : List Event → Option (Manager × List Effect)
  | [] => some (m, [])
  | e :: es =>
      match step e m with
      | none => none
      | some (m2, effs) =>
          match runFrom m2 es with
          | none => none
          | some (mf, tr) => some (mf, effs ++ tr)

/-- Run a sequence of events from the initial supervisor state. -/
def run (watch kill : Bool) (es : List Event) : Option (Manager × List Effect) :=
  runFrom (initManager watch kill) es

/-- The effect trace of a run, with the empty trace for a failed run. -/
def traceOf (o : Option (Manager × List Effect)) : List Effect :=
  match o with
  | none => []
  | some (_, tr) => tr

/-- Modelled from the spec: the four-step re-evaluation (pending work check) of
section 4.2, written following the words of the spec.  1. If
`pendingModification` is false, nothing to do.  2. Else if no child is running,
clear `pendingModification`, clear `terminationRequested`, and start a new
child (clearing the screen first when watch mode is on).  3. Else if kill mode
is enabled and no termination signal has been sent for this run, send the
termination signal and set `terminationRequested`, leaving
`pendingModification` true.  4. Else change nothing. -/
def specReevaluatePendingWork (m : Manager) : Manager × List Effect :=
  if m.pendingModification = false then
    (m, [])
  else
    match m.currentProcess with
    | none =>
        ({ m with pendingModification := false, processTerminated := false,
                  currentProcess := some m.nextPid, nextPid := m.nextPid + 1 },
         (if m.watch then [Effect.clearScreen] else []) ++ [Effect.startProcess m.nextPid])
    | some pid =>
        if m.kill && !m.processTerminated then
          ({ m with processTerminated := true }, [Effect.sendSigterm pid])
        else
          (m, [])

/-- Total form of `step`: the same transition, without the `Option` wrapper.
That `step` never actually fails and agrees with this function is the content
of `step_eq_stepT` below. -/
def stepT (e : Event) (m : Manager) : Manager × List Effect :=
  match e with
  | Event.modification => specReevaluatePendingWork { m with pendingModification := true }
  | Event.sigchld exited =>
      match m.currentProcess with
      | none => (m, [])
      | some pid =>
          if exited then
            ((specReevaluatePendingWork { m with currentProcess := none }).1,
             Effect.reaped pid ::
               (specReevaluatePendingWork { m with currentProcess := none }).2)
          else
            (m, [])
  | Event.exitRequest =>
      match m.currentProcess with
      | none => (m, [])
      | some pid => (m, [Effect.sendSigterm pid])

/-- Total form of `runFrom` (see `runFrom_eq_runFromT`). -/
def runFromT (m : Manager) : List Event → Manager × List Effect
  | [] => (m, [])
  | e :: es =>
      ((runFromT (stepT e m).1 es).1, (stepT e m).2 ++ (runFromT (stepT e m).1 es).2)

/-- Is this effect a process start? -/
def isStart (e : Effect) : Bool :=
  match e with
  | Effect.startProcess _ => true
  | _ => false

/-- Is this effect a SIGTERM being sent? -/
def isSigterm (e : Effect) : Bool :=
  match e with
  | Effect.sendSigterm _ => true
  | _ => false

/-- Number of process starts in an effect trace. -/
def countStarts (tr : List Effect) : Nat := tr.countP isStart

/-- Number of SIGTERMs sent in an effect trace. -/
def countSigterms (tr : List Effect) : Nat := tr.countP isSigterm

/-- How one effect changes the number of simultaneously running children. -/
def aliveStep (n : Nat) (e : Effect) : Nat :=
  match e with
  | Effect.startProcess _ => n + 1
  | Effect.reaped _ => n - 1
  | _ => n

/-- Number of running children after a trace, starting from `n` running. -/
def aliveCount (n : Nat) (tr : List Effect) : Nat := tr.foldl aliveStep n

/-- Highest number of simultaneously running children along a trace, starting
from `n` running. -/
def maxAlive : Nat → List Effect → Nat
  | n, [] => n
  | n, e :: es => max n (maxAlive (aliveStep n e) es)

/-- Number of children a manager state holds a handle to (0 or 1 by type). -/
def aliveOf (m : Manager) : Nat :=
  match m.currentProcess with
  | none => 0
  | some _ => 1

/-- The spec invariant on supervisor state, strengthened by the auxiliary fact
that makes it inductive for this code: whenever `_process_terminated` is set, a
child handle exists and `_pending_modification` is still set (the code clears
`_process_terminated` only on the start path, which also consumes the pending
flag). -/
def stateInv (m : Manager) : Prop :=
  m.processTerminated = true →
    (m.currentProcess.isSome = true ∧ m.pendingModification = true)

/-! ## Model of `Manager._terminate_process` error handling

`_terminate_process` wraps `os.killpg(self._current_process.pid, SIGTERM)` in
`try: ... except PermissionError: pass`.  The outcome of the `os.killpg` call
is an environment input; the method itself mutates no `Manager` field. -/

/-- Possible outcomes of the `os.killpg` call: success, `PermissionError`
(EPERM) or `ProcessLookupError` (ESRCH). -/
inductive KillpgOutcome where
  | success : KillpgOutcome
  | permissionError : KillpgOutcome
  | processLookupError : KillpgOutcome
  deriving DecidableEq

/-- A Python exception escaping `_terminate_process`. -/
inductive PyError where
  | processLookupError : PyError
  deriving DecidableEq

/-- `Manager._terminate_process`: sends SIGTERM via `os.killpg` and suppresses
only `PermissionError` (the comment in the source says this happens when the
process has already exited); any `ProcessLookupError` is not caught and
propagates to the caller. -/
def terminate_process (outcome : KillpgOutcome) : Except PyError Unit :=
  match outcome with
  | KillpgOutcome.success => Except.ok ()
  | KillpgOutcome.permissionError => Except.ok ()
  | KillpgOutcome.processLookupError => Except.error PyError.processLookupError

/-- Modelled from the spec (section 4.2 failure semantics) together with POSIX
`kill`/`killpg` semantics, which the source delegates to `os.killpg`: when the
target process has already exited, the kill operation can report EPERM
(`PermissionError`, the case the source comment mentions, observed on macOS)
or ESRCH (`ProcessLookupError`, reported when the process group no longer
exists). -/
def alreadyExitedOutcomes : List KillpgOutcome :=
  [KillpgOutcome.permissionError, KillpgOutcome.processLookupError]

/-! ## Model of the change filter in `start_monitor`

`start_monitor` builds `include_re` and `exclude_re` by joining
`fnmatch.translate(p)` for each pattern `p` with `"|"`, and the callback
reports a modification for a normalized relative path exactly when
`re.match(include_re, path)` succeeds and `re.match(exclude_re, path)` fails.
`fnmatch.translate` produces a fully anchored regex in which `*` matches any
(possibly empty) sequence of characters including separators and `?` matches
any single character; `globMatchAux` implements exactly that matching for
patterns built from `*`, `?` and literal characters (the only forms appearing
here; character classes are not modelled).  The fuel argument is an upper
bound on the recursion depth; every call site passes enough fuel. -/

/-- Fuel-indexed fnmatch-style glob matching on character lists. -/
def globMatchAux : Nat → List Char → List Char → Bool
  | 0, _, _ => false
  | fuel + 1, pat, s =>
      match pat, s with
      | [], rest => rest.isEmpty
      | '*' :: ps, [] => globMatchAux fuel ps []
      | '*' :: ps, c :: cs =>
          globMatchAux fuel ps (c :: cs) || globMatchAux fuel ('*' :: ps) cs
      | '?' :: ps, _ :: cs => globMatchAux fuel ps cs
      | '?' :: _, [] => false
      | q :: ps, c :: cs => (q == c) && globMatchAux fuel ps cs
      | _ :: _, [] => false

/-- `fnmatch.translate(pat)` matched (fully anchored) against `s`. -/
def fnmatch (pat s : String) : Bool :=
  globMatchAux (pat.data.length + s.data.length + 1) pat.data s.data

/-- `re.match` on the `"|".join(fnmatch.translate(p) for p in pats)` regex: the
empty join is the empty regex, which matches every string; a nonempty join
matches exactly when one of the fully anchored alternatives does. -/
def joinedMatch (pats : List String) (s : String) : Bool :=
  match pats with
  | [] => true
  | _ :: _ => pats.any (fun p => fnmatch p s)

/-- The filter decision of the `start_monitor` callback on a normalized
relative path: the include regex matches and the exclude regex does not. -/
def filterMatches (includePats excludePats : List String) (path : String) : Bool :=
  joinedMatch includePats path && !joinedMatch excludePats path

/-! ## Model of the signal and monitor wiring in `main`

`main` wires the environment to the supervisor in two places: it installs
`signal.signal(signal.SIGCHLD, lambda signal, frame: manager.handle_sigchld())`
and it starts the monitor with `start_monitor(directory, include, exclude,
event.set)`, where `event` is the single `threading.Event` the driver loop
waits on.  What each callback does is modelled as a `BridgeAction`. -/

/-- What a callback registered with the environment does when invoked. -/
inductive BridgeAction where
  | setWakeupEvent : BridgeAction
  | callHandleSigchld : BridgeAction
  deriving DecidableEq

/-- The SIGCHLD handler installed by `main`: the lambda passed to
`signal.signal` calls `manager.handle_sigchld()` directly, inside the
asynchronous signal handler. -/
def sigchldBridge : BridgeAction := BridgeAction.callHandleSigchld

/-- The filesystem-monitor callback passed to `start_monitor` by `main`:
`event.set`, which only posts the coalesced wake-up event. -/
def monitorBridge : BridgeAction := BridgeAction.setWakeupEvent

/-- Modelled from the spec (section 5): the exit-notification bridge only
posts a coalesced wake-up and never calls supervisor operations from its own
execution context. -/
def specSigchldBridge : BridgeAction := BridgeAction.setWakeupEvent

/-- A sample state with a child running and kill mode off, used to evaluate
the coalescing property concretely. -/
def sampleNoKill : Manager :=
  { watch := false, kill := false, currentProcess := some 5,
    processTerminated := false, pendingModification := false, nextPid := 6 }

/-- A sample state with a child running and kill mode on, used to evaluate the
single-SIGTERM property concretely. -/
def sampleKill : Manager :=
  { watch := false, kill := true, currentProcess := some 3,
    processTerminated := false, pendingModification := false, nextPid := 4 }

/-- The state reached from startup in kill mode by a modification followed by
a second modification while the child is running. -/
def sampleTerminated : Manager :=
  { watch := false, kill := true, currentProcess := some 0,
    processTerminated := true, pendingModification := true, nextPid := 1 }

/-! ## Lemmas -/

/-- The decision in `_check_pending_modification` agrees with the four-step
decision given by the spec, and the assertion in `_start_process` is never hit
from it. -/
lemma check_pending_eq_spec (m : Manager) :
    check_pending m = some (specReevaluatePendingWork m) := by
  cases m with
  | mk watch kill currentProcess processTerminated pendingModification nextPid =>
      cases pendingModification <;> cases currentProcess <;>
        cases kill <;> cases processTerminated <;>
        simp [check_pending, specReevaluatePendingWork, start_process]

lemma step_eq_stepT (e : Event) (m : Manager) : step e m = some (stepT e m) := by
  cases e with
  | modification =>
      simp [step, stepT, handle_modification, check_pending_eq_spec]
  | sigchld exited =>
      cases hc : m.currentProcess with
      | none => simp [step, stepT, handle_sigchld, hc]
      | some pid =>
          cases exited <;>
            simp [step, stepT, handle_sigchld, reap_process, hc, check_pending_eq_spec]
  | exitRequest =>
      cases hc : m.currentProcess with
      | none => simp [step, stepT, handle_exit, hc]
      | some pid => simp [step, stepT, handle_exit, hc]

lemma runFrom_eq_runFromT (es : List Event) (m : Manager) :
    runFrom m es = some (runFromT m es) := by
  induction es generalizing m with
  | nil => rfl
  | cons e es ih =>
      simp [runFrom, runFromT, step_eq_stepT, ih]

lemma aliveCount_append (n : Nat) (a b : List Effect) :
    aliveCount n (a ++ b) = aliveCount (aliveCount n a) b := by
  simp [aliveCount, List.foldl_append]

lemma aliveCount_cons (n : Nat) (e : Effect) (a : List Effect) :
    aliveCount n (e :: a) = aliveCount (aliveStep n e) a := by
  simp [aliveCount]

lemma le_maxAlive (b : List Effect) (n : Nat) : n ≤ maxAlive n b := by
  cases b with
  | nil => simp [maxAlive]
  | cons e b => exact Nat.le_max_left _ _

lemma aliveOf_le_one (m : Manager) : aliveOf m ≤ 1 := by
  cases h : m.currentProcess <;> simp [aliveOf, h]

lemma maxAlive_append (n : Nat) (a b : List Effect) :
    maxAlive n (a ++ b) = max (maxAlive n a) (maxAlive (aliveCount n a) b) := by
  induction a generalizing n with
  | nil =>
      simp only [List.nil_append, maxAlive, aliveCount, List.foldl_nil]
      exact (Nat.max_eq_right (le_maxAlive b n)).symm
  | cons e a ih =>
      simp only [List.cons_append, maxAlive, List.append_eq]
      rw [ih, aliveCount_cons, Nat.max_assoc]

lemma spec_reeval_alive (m : Manager) :
    aliveCount (aliveOf m) (specReevaluatePendingWork m).2 = aliveOf (specReevaluatePendingWork m).1 ∧
      maxAlive (aliveOf m) (specReevaluatePendingWork m).2 ≤ 1 := by
  cases m with
  | mk watch kill currentProcess processTerminated pendingModification nextPid =>
      cases pendingModification <;> cases currentProcess <;>
        cases kill <;> cases processTerminated <;> cases watch <;>
        simp [specReevaluatePendingWork, aliveOf, aliveCount, aliveStep, maxAlive]

lemma step_alive (e : Event) (m : Manager) :
    ∃ m2 effs, step e m = some (m2, effs) ∧
      aliveCount (aliveOf m) effs = aliveOf m2 ∧ maxAlive (aliveOf m) effs ≤ 1 := by
  cases e with
  | modification =>
      have h := spec_reeval_alive { m with pendingModification := true }
      have ha : aliveOf { m with pendingModification := true } = aliveOf m := by
        simp [aliveOf]
      rw [ha] at h
      exact ⟨(specReevaluatePendingWork { m with pendingModification := true }).1,
        (specReevaluatePendingWork { m with pendingModification := true }).2,
        by simp [step, handle_modification, check_pending_eq_spec], h.1, h.2⟩
  | sigchld exited =>
      cases hc : m.currentProcess with
      | none =>
          exact ⟨m, [], by simp [step, handle_sigchld, hc],
            by simp [aliveCount], by simp [maxAlive, aliveOf, hc]⟩
      | some pid =>
          cases exited with
          | false =>
              exact ⟨m, [], by simp [step, handle_sigchld, reap_process, hc],
                by simp [aliveCount], by simp [maxAlive, aliveOf, hc]⟩
          | true =>
              have h := spec_reeval_alive { m with currentProcess := none }
              refine ⟨(specReevaluatePendingWork { m with currentProcess := none }).1,
                Effect.reaped pid :: (specReevaluatePendingWork { m with currentProcess := none }).2,
                ?_, ?_, ?_⟩
              · simp [step, handle_sigchld, reap_process, hc, check_pending_eq_spec]
              · have h0 : aliveOf { m with currentProcess := (none : Option Nat) } = 0 := by
                  simp [aliveOf]
                rw [h0] at h
                simpa [aliveCount, aliveOf, hc, aliveStep, List.foldl_cons] using h.1
              · have h0 : aliveOf { m with currentProcess := (none : Option Nat) } = 0 := by
                  simp [aliveOf]
                rw [h0] at h
                have h2 := h.2
                simp only [maxAlive, aliveOf, hc, aliveStep, Nat.sub_self]
                omega
  | exitRequest =>
      cases hc : m.currentProcess with
      | none =>
          exact ⟨m, [], by simp [step, handle_exit, hc],
            by simp [aliveCount], by simp [maxAlive, aliveOf, hc]⟩
      | some pid =>
          exact ⟨m, [Effect.sendSigterm pid], by simp [step, handle_exit, hc],
            by simp [aliveCount, aliveStep], by simp [maxAlive, aliveOf, hc, aliveStep]⟩

lemma runFrom_alive (es : List Event) (m : Manager) :
    ∃ mf tr, runFrom m es = some (mf, tr) ∧
      aliveCount (aliveOf m) tr = aliveOf mf ∧ maxAlive (aliveOf m) tr ≤ 1 := by
  induction es generalizing m with
  | nil =>
      exact ⟨m, [], rfl, by simp [aliveCount],
        by simpa [maxAlive] using aliveOf_le_one m⟩
  | cons e es ih =>
      obtain ⟨m2, effs, hstep, hcnt, hmax⟩ := step_alive e m
      obtain ⟨mf, tr, hrun, hcnt2, hmax2⟩ := ih m2
      refine ⟨mf, effs ++ tr, ?_, ?_, ?_⟩
      · simp [runFrom, hstep, hrun]
      · rw [aliveCount_append, hcnt, hcnt2]
      · rw [maxAlive_append, hcnt]
        omega

lemma runFromT_append (a b : List Event) (m : Manager) :
    runFromT m (a ++ b) =
      ((runFromT (runFromT m a).1 b).1,
        (runFromT m a).2 ++ (runFromT (runFromT m a).1 b).2) := by
  induction a generalizing m with
  | nil => simp [runFromT]
  | cons e a ih => simp [runFromT, ih]

lemma set_pending_self (m : Manager) (hpm : m.pendingModification = true) :
    { m with pendingModification := true } = m := by
  cases m
  simp_all

lemma stepT_mod_running_noresignal (m : Manager) (pid : Nat)
    (hc : m.currentProcess = some pid)
    (h : m.kill = false ∨ m.processTerminated = true) :
    stepT Event.modification m = ({ m with pendingModification := true }, []) := by
  rcases h with h | h <;> simp [stepT, specReevaluatePendingWork, hc, h]

lemma runFromT_mods_fix (N : Nat) (m : Manager) (pid : Nat)
    (hc : m.currentProcess = some pid)
    (h : m.kill = false ∨ m.processTerminated = true)
    (hpm : m.pendingModification = true) :
    runFromT m (List.replicate N Event.modification) = (m, []) := by
  induction N with
  | zero => rfl
  | succ n ih =>
      have hstep := stepT_mod_running_noresignal m pid hc h
      rw [set_pending_self m hpm] at hstep
      simp [List.replicate_succ, runFromT, hstep, ih]

lemma runFromT_mods_once (N : Nat) (hN : 1 ≤ N) (m : Manager) (pid : Nat)
    (hc : m.currentProcess = some pid)
    (h : m.kill = false ∨ m.processTerminated = true) :
    runFromT m (List.replicate N Event.modification) =
      ({ m with pendingModification := true }, []) := by
  obtain ⟨n, rfl⟩ : ∃ n, N = n + 1 := ⟨N - 1, by omega⟩
  have hstep := stepT_mod_running_noresignal m pid hc h
  rw [List.replicate_succ]
  simp only [runFromT, hstep]
  rw [runFromT_mods_fix n { m with pendingModification := true } pid (by simpa using hc)
    (by simpa using h) (by simp)]
  simp

lemma countStarts_start_effects (w : Bool) (pid : Nat) :
    countStarts ((if w then [Effect.clearScreen] else []) ++ [Effect.startProcess pid]) = 1 := by
  cases w <;> simp [countStarts, isStart]

lemma stepT_sigchld_exit_pending (m : Manager) (pid : Nat)
    (hc : m.currentProcess = some pid) (hpm : m.pendingModification = true) :
    stepT (Event.sigchld true) m =
      ({ m with currentProcess := some m.nextPid, pendingModification := false,
                processTerminated := false, nextPid := m.nextPid + 1 },
       Effect.reaped pid ::
         ((if m.watch then [Effect.clearScreen] else []) ++ [Effect.startProcess m.nextPid])) := by
  cases m
  simp_all [stepT, specReevaluatePendingWork]

lemma stepT_mod_running_kill (m : Manager) (pid : Nat)
    (hc : m.currentProcess = some pid) (hk : m.kill = true)
    (hpt : m.processTerminated = false) :
    stepT Event.modification m =
      ({ m with pendingModification := true, processTerminated := true },
       [Effect.sendSigterm pid]) := by
  cases m
  simp_all [stepT, specReevaluatePendingWork]

lemma spec_reeval_inv_pending (m : Manager) (hm : stateInv m) :
    stateInv (specReevaluatePendingWork { m with pendingModification := true }).1 := by
  cases m with
  | mk watch kill cp pt pm npid =>
      cases cp <;> cases pt <;> cases kill <;>
        simp_all [specReevaluatePendingWork, stateInv]

lemma spec_reeval_inv_none (m : Manager) (hm : stateInv m) :
    stateInv (specReevaluatePendingWork { m with currentProcess := none }).1 := by
  cases m with
  | mk watch kill cp pt pm npid =>
      cases pm <;> cases pt <;>
        simp_all [specReevaluatePendingWork, stateInv]

lemma stepT_inv (e : Event) (m : Manager) (hm : stateInv m) : stateInv (stepT e m).1 := by
  cases e with
  | modification => exact spec_reeval_inv_pending m hm
  | sigchld exited =>
      cases hc : m.currentProcess with
      | none =>
          simp only [stepT, hc]
          exact hm
      | some pid =>
          cases exited with
          | false =>
              simp only [stepT, hc, if_neg Bool.false_ne_true]
              exact hm
          | true =>
              simp only [stepT, hc, if_pos rfl]
              exact spec_reeval_inv_none m hm
  | exitRequest =>
      cases hc : m.currentProcess with
      | none =>
          simp only [stepT, hc]
          exact hm
      | some pid =>
          simp only [stepT, hc]
          exact hm

lemma runFromT_inv (es : List Event) (m : Manager) (hm : stateInv m) :
    stateInv (runFromT m es).1 := by
  induction es generalizing m with
  | nil => exact hm
  | cons e es ih =>
      simp only [runFromT]
      exact ih _ (stepT_inv e m hm)

lemma stepT_sigchld_nopending (b : Bool) (m : Manager)
    (hpm : m.pendingModification = false) :
    (stepT (Event.sigchld b) m).1.pendingModification = false ∧
      countStarts (stepT (Event.sigchld b) m).2 = 0 := by
  cases hc : m.currentProcess with
  | none => simp [stepT, hc, hpm, countStarts]
  | some pid =>
      cases b with
      | false => simp [stepT, hc, hpm, countStarts]
      | true =>
          simp [stepT, hc, specReevaluatePendingWork, hpm, countStarts, isStart]

lemma runFromT_sigchlds_nostart (bs : List Bool) (m : Manager)
    (hpm : m.pendingModification = false) :
    countStarts (runFromT m (bs.map Event.sigchld)).2 = 0 := by
  induction bs generalizing m with
  | nil => simp [runFromT, countStarts]
  | cons b bs ih =>
      obtain ⟨h1, h2⟩ := stepT_sigchld_nopending b m hpm
      have h3 := ih (stepT (Event.sigchld b) m).1 h1
      simp only [List.map_cons, runFromT, countStarts, List.countP_append] at *
      omega

lemma stepT_mod_init (watch kill : Bool) :
    stepT Event.modification (initManager watch kill) =
      ({ watch := watch, kill := kill, currentProcess := some 0, processTerminated := false,
         pendingModification := false, nextPid := 1 },
       (if watch then [Effect.clearScreen] else []) ++ [Effect.startProcess 0]) := by
  cases watch <;> cases kill <;> simp [stepT, initManager, specReevaluatePendingWork]

/-! ## Claims -/

/-- C1: the re-evaluation run at the end of `handle_modification` and
`_reap_process` (namely `_check_pending_modification`) follows, for every
supervisor state, exactly the four-step decision of the spec: do nothing when
no modification is pending; else start the command when no child runs,
clearing both flags (and the screen in watch mode); else, in kill mode with no
termination signal yet sent for this run, send SIGTERM and record it, leaving
the pending flag set; in every other case change no state. -/
theorem reevaluation_follows_spec (m : Manager) :
    check_pending m = some (specReevaluatePendingWork m) :=
  check_pending_eq_spec m

/-- C2: for every sequence of modification, child-exit and shutdown events
from the initial supervisor state, the run never fails an assertion (in
particular the one in `_start_process`) and at most one child process exists
at any point of the effect trace. -/
theorem at_most_one_child (watch kill : Bool) (es : List Event) :
    (run watch kill es).isSome = true ∧
      maxAlive 0 (traceOf (run watch kill es)) ≤ 1 := by
  obtain ⟨mf, tr, hrun, hcnt, hmax⟩ := runFrom_alive es (initManager watch kill)
  have h0 : aliveOf (initManager watch kill) = 0 := rfl
  rw [h0] at hmax
  refine ⟨by simp [run, hrun], ?_⟩
  simpa [run, traceOf, hrun] using hmax

/-- C3: with kill mode disabled and a child running, any number N of
consecutive `handle_modification` calls leaves the supervisor exactly as one
call does (pending flag set, nothing else changed, no effects), and once the
child exits exactly one new run is started. -/
theorem coalescing_no_kill (m : Manager) (pid : Nat) (N : Nat)
    (hk : m.kill = false) (hc : m.currentProcess = some pid) (hN : 1 ≤ N) :
    runFrom m (List.replicate N Event.modification) = runFrom m [Event.modification] ∧
      runFrom m [Event.modification] = some ({ m with pendingModification := true }, []) ∧
      countStarts (traceOf (runFrom m
        (List.replicate N Event.modification ++ [Event.sigchld true]))) = 1 := by
  have h1 := runFromT_mods_once N hN m pid hc (Or.inl hk)
  have hone := runFromT_mods_once 1 (le_refl 1) m pid hc (Or.inl hk)
  have hlist : List.replicate 1 Event.modification = [Event.modification] := rfl
  rw [hlist] at hone
  refine ⟨?_, ?_, ?_⟩
  · rw [runFrom_eq_runFromT, runFrom_eq_runFromT, h1, hone]
  · rw [runFrom_eq_runFromT, hone]
  · rw [runFrom_eq_runFromT, runFromT_append, h1]
    have hstep := stepT_sigchld_exit_pending { m with pendingModification := true } pid
      (by simpa using hc) (by simp)
    simp only [runFromT, hstep, countStarts, traceOf]
    have := countStarts_start_effects m.watch m.nextPid
    simp only [countStarts] at this
    simp [List.countP_cons, List.countP_append, isStart, this]

/-- C3 witness. -/
theorem coalescing_no_kill_witness :
    runFrom sampleNoKill (List.replicate 2 Event.modification) =
        runFrom sampleNoKill [Event.modification] ∧
      runFrom sampleNoKill [Event.modification] =
        some ({ sampleNoKill with pendingModification := true }, []) ∧
      countStarts (traceOf (runFrom sampleNoKill
        (List.replicate 2 Event.modification ++ [Event.sigchld true]))) = 1 :=
  coalescing_no_kill sampleNoKill 5 2 rfl rfl (by omega)

/-- C4: with a child running, a whole burst of N modification events sends at
most one SIGTERM in total, and sends none at all when `_process_terminated`
is already set. -/
theorem kill_mode_single_sigterm (m : Manager) (pid : Nat) (N : Nat)
    (hc : m.currentProcess = some pid) :
    countSigterms (traceOf (runFrom m (List.replicate N Event.modification))) ≤ 1 ∧
      (m.processTerminated = true →
        countSigterms (traceOf (runFrom m (List.replicate N Event.modification))) = 0) := by
  rw [runFrom_eq_runFromT]
  constructor
  · cases hN : N with
    | zero => simp [runFromT, traceOf, countSigterms]
    | succ n =>
        cases hk : m.kill with
        | false =>
            rw [runFromT_mods_once (n + 1) (by omega) m pid hc (Or.inl hk)]
            simp [traceOf, countSigterms]
        | true =>
            cases hpt : m.processTerminated with
            | true =>
                rw [runFromT_mods_once (n + 1) (by omega) m pid hc (Or.inr hpt)]
                simp [traceOf, countSigterms]
            | false =>
                have hstep := stepT_mod_running_kill m pid hc hk hpt
                rw [List.replicate_succ]
                simp only [runFromT, hstep]
                rw [runFromT_mods_fix n _ pid (by simpa using hc) (by simp) (by simp)]
                simp [traceOf, countSigterms, isSigterm]
  · intro hpt
    cases hN : N with
    | zero => simp [runFromT, traceOf, countSigterms]
    | succ n =>
        rw [runFromT_mods_once (n + 1) (by omega) m pid hc (Or.inr hpt)]
        simp [traceOf, countSigterms]

/-- C4 witness. -/
theorem kill_mode_single_sigterm_witness :
    countSigterms (traceOf (runFrom sampleKill (List.replicate 3 Event.modification))) ≤ 1 ∧
      (sampleKill.processTerminated = true →
        countSigterms (traceOf (runFrom sampleKill
          (List.replicate 3 Event.modification))) = 0) :=
  kill_mode_single_sigterm sampleKill 3 3 rfl

/-- C5: in every supervisor state reachable at an operation boundary,
`_process_terminated` is true only if a child handle exists. -/
theorem terminated_implies_running (watch kill : Bool) (es : List Event)
    (m : Manager) (tr : List Effect) (h : run watch kill es = some (m, tr))
    (ht : m.processTerminated = true) : m.currentProcess.isSome = true := by
  rw [run, runFrom_eq_runFromT] at h
  have h2 := Option.some.inj h
  have hinv := runFromT_inv es (initManager watch kill)
    (by intro hx; simp [initManager] at hx)
  rw [h2] at hinv
  exact (hinv ht).1

/-- C5 witness. -/
theorem terminated_implies_running_witness :
    sampleTerminated.currentProcess.isSome = true :=
  terminated_implies_running false true [Event.modification, Event.modification]
    sampleTerminated [Effect.startProcess 0, Effect.sendSigterm 0] (by decide) (by decide)

/-- C6 counterexample: ESRCH (`ProcessLookupError`) is an error the kill
operation can report when the target process has already exited, and
`_terminate_process` does not suppress it: the exception propagates. -/
theorem terminate_already_exited_counterexample :
    KillpgOutcome.processLookupError ∈ alreadyExitedOutcomes ∧
      terminate_process KillpgOutcome.processLookupError =
        Except.error PyError.processLookupError :=
  ⟨by simp [alreadyExitedOutcomes], rfl⟩

/-- C6 amended: `_terminate_process` succeeds exactly when the kill succeeds
or reports `PermissionError` (the only already-exited error it suppresses); a
`ProcessLookupError` propagates.  It changes no supervisor state in any case
(the modelled function has no state component at all). -/
theorem terminate_suppresses_only_permission_error (o : KillpgOutcome) :
    terminate_process o = Except.ok () ↔
      (o = KillpgOutcome.success ∨ o = KillpgOutcome.permissionError) := by
  cases o <;> simp [terminate_process]

/-- C7: with nonempty include and exclude pattern lists (as always supplied by
`main`), the filter reports a path exactly when some include pattern matches
it and no exclude pattern does, under fnmatch glob semantics; concretely,
with include `*.go` and exclude `.*`: `src/main.go` matches while `.git/HEAD`
and `build/out.o` do not. -/
theorem filter_matches_spec :
    (∀ (includePats excludePats : List String) (path : String),
        includePats ≠ [] → excludePats ≠ [] →
        (filterMatches includePats excludePats path = true ↔
          ((∃ p ∈ includePats, fnmatch p path = true) ∧
            ∀ p ∈ excludePats, fnmatch p path = false))) ∧
      filterMatches ["*.go"] [".*"] "src/main.go" = true ∧
      filterMatches ["*.go"] [".*"] ".git/HEAD" = false ∧
      filterMatches ["*.go"] [".*"] "build/out.o" = false := by
  refine ⟨?_, by decide, by decide, by decide⟩
  intro includePats excludePats path hinc hexc
  cases includePats with
  | nil => exact absurd rfl hinc
  | cons i is =>
      cases excludePats with
      | nil => exact absurd rfl hexc
      | cons x xs =>
          simp [filterMatches, joinedMatch, List.any_eq_true]

/-- C7 witness. -/
theorem filter_matches_spec_witness :
    (["*.go"] : List String) ≠ [] ∧ ([".*"] : List String) ≠ [] ∧
      (filterMatches ["*.go"] [".*"] "src/main.go" = true ↔
        ((∃ p ∈ (["*.go"] : List String), fnmatch p "src/main.go" = true) ∧
          ∀ p ∈ ([".*"] : List String), fnmatch p "src/main.go" = false)) :=
  ⟨by simp, by simp,
    filter_matches_spec.1 ["*.go"] [".*"] "src/main.go" (by simp) (by simp)⟩

/-- C8: with no wake-up event ever set, the driver loop issues exactly one
synthetic `handle_modification`, so over the initial modification followed by
any sequence of SIGCHLD deliveries the command is started exactly once, with
no assertion failure. -/
theorem startup_exactly_one_run (watch kill : Bool) (bs : List Bool) :
    (run watch kill (Event.modification :: bs.map Event.sigchld)).isSome = true ∧
      countStarts (traceOf (run watch kill
        (Event.modification :: bs.map Event.sigchld))) = 1 := by
  rw [run, runFrom_eq_runFromT]
  refine ⟨rfl, ?_⟩
  simp only [traceOf, runFromT, stepT_mod_init]
  have h1 := runFromT_sigchlds_nostart bs
    { watch := watch, kill := kill, currentProcess := some 0, processTerminated := false,
      pendingModification := false, nextPid := 1 } rfl
  simp only [countStarts] at h1 ⊢
  rw [List.countP_append]
  cases watch <;> simp [List.countP_cons, isStart, h1]

/-- C9 counterexample: the SIGCHLD bridge installed by `main` does not merely
post the coalesced wake-up event: the handler lambda invokes
`manager.handle_sigchld()` directly inside the asynchronous signal handler. -/
theorem sigchld_bridge_counterexample : sigchldBridge ≠ specSigchldBridge := by
  decide

/-- C9 amended: the filesystem-monitor callback only posts the coalesced
wake-up event, but the child-exit bridge calls the supervisor operation
`handle_sigchld` directly from the asynchronous SIGCHLD handler, so supervisor
logic does execute inside asynchronous signal context and can interrupt an
in-progress supervisor operation. -/
theorem bridge_wiring_as_implemented :
    monitorBridge = BridgeAction.setWakeupEvent ∧
      sigchldBridge = BridgeAction.callHandleSigchld := by
  decide

/-- C10: calling `handle_sigchld` when no child handle exists raises nothing
and changes nothing: it returns the state unchanged with no effects. -/
theorem sigchld_without_child_is_noop (exited : Bool) (m : Manager)
    (h : m.currentProcess = none) :
    handle_sigchld exited m = some (m, []) := by
  simp [handle_sigchld, h]

/-- C10 witness. -/
theorem sigchld_without_child_is_noop_witness :
    (initManager false false).currentProcess = none ∧
      handle_sigchld true (initManager false false) = some (initManager false false, []) :=
  ⟨rfl, sigchld_without_child_is_noop true (initManager false false) rfl⟩

end Dirwatch
